import Mathlib

/-!
Verification development for the Cursor prompt extraction pipeline
(src/debug_extraction.py).  The Python module is shallowly embedded:
pure computations become Lean functions, the interactions with the
operating system (clock, file modification times, the content hash,
the spreadsheet files on disk, spreadsheet write failures) are fields
of an explicit environment record, and exceptional control flow is
made explicit in the return types.
-/

namespace CursorPrompt

/-- Lexicographic code point comparison of character lists.  This is the
order Python uses when comparing str values, and hence the order pandas
sort_values applies to the date and time columns. -/
def charListLt : List Char → List Char → Bool
  | [], [] => false
  | [], _ :: _ => true
  | _ :: _, [] => false
  | a :: as, b :: bs =>
    if a.toNat < b.toNat then true
    else if b.toNat < a.toNat then false
    else charListLt as bs

/-- Strict string comparison by code points, as in Python. -/
def strLtB (a b : String) : Bool := charListLt a.data b.data

/-- Non-strict string comparison by code points, as in Python. -/
def strLeB (a b : String) : Bool := a == b || strLtB a b

/-- Fuel-driven worker for string replacement: leftmost, non-overlapping,
every occurrence, exactly the semantics of the Python str.replace method
for a non-empty pattern.  The fuel is instantiated with the length of the
subject list, which is always sufficient. -/
def replaceCharsFuel (pat rep : List Char) : Nat → List Char → List Char
  | _, [] => []
  | 0, l => l
  | fuel + 1, c :: rest =>
    if !pat.isEmpty && pat.isPrefixOf (c :: rest) then
      rep ++ replaceCharsFuel pat rep fuel (rest.drop (pat.length - 1))
    else
      c :: replaceCharsFuel pat rep fuel rest

/-- Model of the Python method s.replace(pat, rep) for non-empty pat. -/
def strReplace (s pat rep : String) : String :=
  String.mk (replaceCharsFuel pat.data rep.data s.data.length s.data)

/-- Model of os.path.join for a relative second component. -/
def joinPath (a b : String) : String := a ++ "/" ++ b

/-- Model of os.path.dirname: everything before the last slash, the
empty string when there is none. -/
def dirName (p : String) : String :=
  String.mk (((p.data.reverse.dropWhile (fun c => c != '/')).drop 1).reverse)

/-- Name of the embedded store file inside a workspace directory
(constant STATE_DB_FILE in the source). -/
def STATE_DB_FILE : String := "state.vscdb"

/-- Name of the persisted deduplication ledger file
(constant PROCESSED_PROMPTS_FILE in the source). -/
def PROCESSED_PROMPTS_FILE : String := "processed_prompts.json"

/-- Module level default save root: os.path.join(HOME, Desktop, RYJ,
saveprompt).  The home directory is a parameter of the model. -/
def SAVE_PATH (home : String) : String :=
  joinPath (joinPath (joinPath home "Desktop") "RYJ") "saveprompt"

/-- One output row: the three columns of the per project table. -/
structure Row where
  date : String
  time : String
  prompt : String
deriving DecidableEq

/-- The deduplication ledger: a mapping from content id to a date string.
Python dicts preserve insertion order and json round trips it, so the
mapping is modelled as an insertion ordered association list; a fresh key
is appended at the end, as dict assignment does. -/
abbrev Ledger := List (String × String)

/-- Membership test prompt_id in processed_prompts: key lookup only, the
stored date value is never inspected. -/
def ledgerHas (m : Ledger) (k : String) : Bool := m.any (fun e => e.1 == k)

/-- State of the ledger file on disk: absent, parseable with contents m,
or present but unparsable. -/
inductive LedgerFile where
  | absent
  | valid (m : Ledger)
  | corrupt
deriving DecidableEq

/-- An existing spreadsheet file as pandas read_excel delivers it: a list
of column names and the rows aligned with those columns. -/
structure Table where
  cols : List String
  rows : List (List String)
deriving DecidableEq

/-- Environment of one pipeline invocation.  Each field models one
interaction of the source with the outside world:
hash models hashlib.md5(text.encode()).hexdigest();
fromtimestamp t models datetime.fromtimestamp(t) rendered through
strftime as a (YYYY-MM-DD, HH:MM:SS) pair;
now models datetime.now() rendered the same way;
today8 models the value datetime.now().strftime(percent Y percent m
percent d) computed at line 283, an eight digit date;
nowStamp models the fourteen digit backup timestamp;
home models os.path.expanduser of the tilde;
fs models the spreadsheet files present on disk, by full path;
dirs models the directories already present on disk, by full path
(beyond the ones the pipeline itself creates with os.makedirs);
excelWriteFails models whether DataFrame.to_excel raises. -/
structure Env where
  hash : String → String
  fromtimestamp : Nat → String × String
  now : String × String
  today8 : String
  nowStamp : String
  home : String
  fs : String → Option Table
  dirs : String → Bool
  excelWriteFails : Bool

/-- Origin of the timestamp chosen by extract_timestamp_from_data. -/
inductive TsSource where
  | dbModTime
  | currentTime
deriving DecidableEq

/-- Embedding of extract_timestamp_from_data (lines 40-56).  The data
argument is ignored by the source exactly as it is here.  The Python
truthiness test if db_mod_time means that both None and a zero
modification time fall through to the datetime.now() branch. -/
def extract_timestamp_from_data (env : Env) (_data : Option (Option String))
    (db_mod_time : Option Nat) : (String × String) × TsSource :=
  match db_mod_time with
  | some t =>
    if t != 0 then (env.fromtimestamp t, TsSource.dbModTime)
    else (env.now, TsSource.currentTime)
  | none => (env.now, TsSource.currentTime)

/-- Result of loading the ledger: the mapping returned and the backup
file created by os.rename, when any. -/
structure LoadResult where
  mapping : Ledger
  renamedTo : Option String
deriving DecidableEq

/-- Embedding of load_processed_prompts (lines 58-80).  A missing file
yields the empty mapping; a parse failure renames the bad file to a
timestamped .bak sibling and yields the empty mapping; in the model the
function is total, so nothing is ever raised past the load call. -/
def load_processed_prompts (lf : LedgerFile) (save_path : String)
    (nowStamp : String) : LoadResult :=
  let processed_file := joinPath save_path PROCESSED_PROMPTS_FILE
  match lf with
  | LedgerFile.absent => ⟨[], none⟩
  | LedgerFile.valid m => ⟨m, none⟩
  | LedgerFile.corrupt => ⟨[], some (processed_file ++ ".bak." ++ nowStamp)⟩

/-- Accumulator of the prompt loop in process_database: the results list,
the in memory ledger and the counter of newly recorded ids. -/
structure LoopState where
  results : List Row
  ledger : Ledger
  newCount : Nat
deriving DecidableEq

/-- One iteration of the prompt loop (lines 294-341).  A record is
modelled as some text when it is a dict carrying a text field, and as
none otherwise (non dict entries and entries without text are skipped).
Ids already in the ledger are skipped unconditionally; then the date
derived from the store modification time is compared with today; on
acceptance a row is appended and the id is recorded with value today. -/
def promptStep (env : Env) (db_mod_time : Nat) (today : String)
    (st : LoopState) (p : Option String) : LoopState :=
  match p with
  | none => st
  | some prompt_text =>
    let prompt_id := env.hash prompt_text
    if ledgerHas st.ledger prompt_id then st
    else
      let dt := (extract_timestamp_from_data env none (some db_mod_time)).1
      let date_str := dt.1
      let time_str := dt.2
      let db_date := strReplace date_str "-" ""
      if db_date != today then st
      else
        { results := st.results ++ [⟨date_str, time_str, prompt_text⟩],
          ledger := st.ledger ++ [(prompt_id, today)],
          newCount := st.newCount + 1 }

/-- The whole prompt loop of process_database over the parsed list. -/
def processPrompts (env : Env) (db_mod_time : Nat) (today : String)
    (m : Ledger) (ps : List (Option String)) : LoopState :=
  ps.foldl (promptStep env db_mod_time today) ⟨[], m, 0⟩

/-- Failure classes the embedding distinguishes. -/
inductive PyErr where
  | osError
  | sqliteError
  | unboundLocal
deriving DecidableEq

/-- Return value of process_database: the normal (project name, rows)
pair, or an escaped exception. -/
inductive PDRet where
  | ok (project : String) (rows : List Row)
  | err (e : PyErr)
deriving DecidableEq

/-- Observable outcome of one process_database call: its return or
escaped exception, the ledger file path it read, and the ledger file
path and mapping it wrote. -/
structure PDOut where
  ret : PDRet
  ledgerReadPath : Option String
  ledgerSaved : Option (String × Ledger)
deriving DecidableEq

/-- One discovered workspace as process_database sees it.
mtime is the store file modification time in epoch seconds, or none when
the store file has vanished so that os.path.getmtime raises;
resolvedName is the result of extract_project_name, which never raises
because every failure inside it degrades to the folder name;
queryOk is false when the sqlite connection or queries raise;
promptsBlob is none when the aiService.prompts key is absent or empty,
some none when its value fails to parse as json, and some (some ps) when
it parses to a json array, whose entries are some text for a dict with a
text field and none for anything else. -/
structure Workspace where
  folderName : String
  mtime : Option Nat
  resolvedName : String
  queryOk : Bool
  promptsBlob : Option (Option (List (Option String)))
deriving DecidableEq

/-- Embedding of process_database (lines 227-352).  Everything inside the
try block that raises is caught and logged, after which control reaches
the final return of (project_name, results).  When os.path.getmtime
raises, project_name was never assigned, so that final return itself
raises UnboundLocalError, which escapes the function: this is the only
escaping failure.  The ledger is loaded and saved with the DEFAULT
save path argument (the calls at lines 287 and 345 pass no path), so the
paths recorded here mention SAVE_PATH env.home and not any caller chosen
save root. -/
def process_database (env : Env) (lf : LedgerFile) (ws : Workspace) : PDOut :=
  match ws.mtime with
  | none => ⟨PDRet.err PyErr.unboundLocal, none, none⟩
  | some db_mod_time =>
    let project_name := ws.resolvedName
    if !ws.queryOk then ⟨PDRet.ok project_name [], none, none⟩
    else
      match ws.promptsBlob with
      | none => ⟨PDRet.ok project_name [], none, none⟩
      | some none => ⟨PDRet.ok project_name [], none, none⟩
      | some (some ps) =>
        match ps with
        | [] => ⟨PDRet.ok project_name [], none, none⟩
        | _ :: _ =>
          let today := env.today8
          let ledger_path := joinPath (SAVE_PATH env.home) PROCESSED_PROMPTS_FILE
          let loaded := load_processed_prompts lf (SAVE_PATH env.home) env.nowStamp
          let st := processPrompts env db_mod_time today loaded.mapping ps
          ⟨PDRet.ok project_name st.results, some ledger_path,
            some (ledger_path, st.ledger)⟩

/-- Character class removed by the sanitization step (line 393): the
regex character class x00-x08, x0B, x0C, x0E-x1F, x7F.  Tab (x09),
newline (x0A) and carriage return (x0D) are outside the class and are
therefore preserved. -/
def isExcelControl (c : Char) : Bool :=
  decide (c.toNat ≤ 8) || c.toNat == 11 || c.toNat == 12 ||
  (decide (14 ≤ c.toNat) && decide (c.toNat ≤ 31)) || c.toNat == 127

/-- Maximum cell length enforced before the write (line 395). -/
def EXCEL_CELL_LIMIT : Nat := 32700

/-- Embedding of the per field sanitization (lines 388-396): remove the
control characters, then truncate to the configured maximum when the
remainder is longer. -/
def sanitizeStr (s : String) : String :=
  let t := String.mk (s.data.filter (fun c => !(isExcelControl c)))
  if t.length > EXCEL_CELL_LIMIT then String.mk (t.data.take EXCEL_CELL_LIMIT)
  else t

/-- Sanitization of one row: the loop at line 388 visits every string
field of every item, hence all three columns. -/
def sanitizeRow (r : Row) : Row :=
  ⟨sanitizeStr r.date, sanitizeStr r.time, sanitizeStr r.prompt⟩

/-- Cell of an existing spreadsheet row under a wanted column name,
or the empty string for a column the file does not have.  This models
adding missing columns as empty (line 408) and dropping extra columns
(line 413) in one step. -/
def getCell (cols : List String) (vals : List String) (c : String) : String :=
  match cols.findIdx? (fun x => x == c) with
  | some i => vals.getD i ""
  | none => ""

/-- Coercion of one existing spreadsheet row to the (date, time, prompt)
column set. -/
def coerceRow (cols : List String) (vals : List String) : Row :=
  ⟨getCell cols vals "date", getCell cols vals "time",
    getCell cols vals "prompt"⟩

/-- Insert step of duplicate removal keeping the first occurrence, the
behaviour of drop_duplicates at line 416 (keep defaults to first). -/
def dedupInsert (acc : List Row) (r : Row) : List Row :=
  if r ∈ acc then acc else acc ++ [r]

/-- Duplicate removal over the concatenated rows on the full
(date, time, prompt) key, keeping first occurrences in order. -/
def dedupKeepFirst (l : List Row) : List Row := l.foldl dedupInsert []

/-- Sort key of sort_values by date then time (line 419). -/
def rowKeyLe (a b : Row) : Bool :=
  strLtB a.date b.date || (a.date == b.date && strLeB a.time b.time)

/-- The sort relation as a proposition. -/
def rowKeyRel (a b : Row) : Prop := rowKeyLe a b = true

instance : DecidableRel rowKeyRel :=
  fun a b => inferInstanceAs (Decidable (rowKeyLe a b = true))

/-- Stable sort by (date, time): pandas sort_values on several columns
uses a stable lexsort, modelled by insertion sort, which is stable. -/
def sortRows (l : List Row) : List Row := List.insertionSort rowKeyRel l

/-- Target file path computed at lines 372-381: save root, project
folder, then projectName_YYYYMMDD_prompt.xlsx where the date component
is the date of the first row with its dashes removed. -/
def excelTargetPath (save_path project_name d0date : String) : String :=
  joinPath (joinPath save_path project_name)
    (project_name ++ "_" ++ strReplace d0date "-" "" ++ "_prompt.xlsx")

/-- Observable outcome of one save_to_excel call: the returned path
(none models the Python return of None) and the file actually written,
as the pair of its path and its rows. -/
structure SaveOut where
  ret : Option String
  written : Option (String × List Row)
deriving DecidableEq

/-- Embedding of save_to_excel (lines 354-453).  With no data nothing is
written and nothing is returned.  Otherwise os.makedirs creates the
project folder (line 376), the target path is computed from the first
row BEFORE sanitization (line 372 runs before line 388), the new rows
are sanitized in place, and either the merge branch (file exists:
coerce columns, concatenate, drop duplicates on the full key, sort by
date and time) or the fresh branch (rows as they are) produces the
write set.  When the primary spreadsheet write raises, a csv write of
the same rows is attempted at the path obtained by replacing every
occurrence of .xlsx in the target path with .csv (the Python replace
method replaces all occurrences, lines 431 and 445).  pandas to_csv
creates no directories, so it succeeds exactly when the directory of
that path already exists: the project folder just created by makedirs,
or a directory present on disk beforehand.  When it raises instead, the
outer except at line 451 catches it, logs, and returns None with
nothing written. -/
def save_to_excel (fs : String → Option Table) (dirs : String → Bool)
    (excelFails : Bool) (project_name : String) (data : List Row)
    (save_path : String) : SaveOut :=
  match data with
  | [] => ⟨none, none⟩
  | d0 :: _ =>
    let project_folder := joinPath save_path project_name
    let file_path := excelTargetPath save_path project_name d0.date
    let sdata := data.map sanitizeRow
    match fs file_path with
    | some t =>
      let existing_rows := t.rows.map (fun vals => coerceRow t.cols vals)
      let combined := sortRows (dedupKeepFirst (existing_rows ++ sdata))
      if excelFails then
        let csv_path := strReplace file_path ".xlsx" ".csv"
        if dirs (dirName csv_path) || (dirName csv_path == project_folder) then
          ⟨some csv_path, some (csv_path, combined)⟩
        else ⟨none, none⟩
      else ⟨some file_path, some (file_path, combined)⟩
    | none =>
      if excelFails then
        let csv_path := strReplace file_path ".xlsx" ".csv"
        if dirs (dirName csv_path) || (dirName csv_path == project_folder) then
          ⟨some csv_path, some (csv_path, sdata)⟩
        else ⟨none, none⟩
      else ⟨some file_path, some (file_path, sdata)⟩

/-- Return value of extract_prompts: the list of written file paths, or
an escaped exception. -/
inductive ERet where
  | ok (files : List String)
  | err (e : PyErr)
deriving DecidableEq

/-- Observable outcome of one extract_prompts call: its return or
escaped exception, every ledger path read, every ledger write (path and
mapping), and every table file written (path and rows). -/
structure ExtractOut where
  ret : ERet
  ledgerReads : List String
  ledgerWrites : List (String × Ledger)
  excelWrites : List (String × List Row)
deriving DecidableEq

/-- Worker of extract_prompts over the discovered workspace list
(lines 482-500).  The call to process_database has no surrounding try,
so an exception escaping it aborts the whole loop: the remaining
workspaces are not processed.  A ledger saved by one workspace is the
ledger file the next workspace loads.  The source guards the
save_to_excel call with if data, and only truthy returned paths are
collected; calling the model unconditionally is equivalent because the
model returns none of either on empty data. -/
def extractLoop (env : Env) (save_path : String) :
    LedgerFile → List Workspace → ExtractOut
  | _, [] => ⟨ERet.ok [], [], [], []⟩
  | lf, ws :: rest =>
    let pd := process_database env lf ws
    match pd.ret with
    | PDRet.err e => ⟨ERet.err e, pd.ledgerReadPath.toList,
        pd.ledgerSaved.toList, []⟩
    | PDRet.ok project_name data =>
      let lf2 := match pd.ledgerSaved with
        | some (_, m) => LedgerFile.valid m
        | none => lf
      let so := save_to_excel env.fs env.dirs env.excelWriteFails project_name data save_path
      let tail := extractLoop env save_path lf2 rest
      { ret := match tail.ret with
          | ERet.err e => ERet.err e
          | ERet.ok files => ERet.ok (so.ret.toList ++ files),
        ledgerReads := pd.ledgerReadPath.toList ++ tail.ledgerReads,
        ledgerWrites := pd.ledgerSaved.toList ++ tail.ledgerWrites,
        excelWrites := so.written.toList ++ tail.excelWrites }

/-- Embedding of extract_prompts (lines 455-502): the workspace list is
the output of find_today_folders, and lf is the state of the ledger file
at the module default path when the run starts. -/
def extract_prompts (env : Env) (lf : LedgerFile)
    (workspaces : List Workspace) (save_path : String) : ExtractOut :=
  extractLoop env save_path lf workspaces

/-- Specification side predicate: a ten character date in the
YYYY-MM-DD shape, digits everywhere except dashes at positions 4 and 7.
This formalizes the shape the spec asserts for ledger values; it is
taken from the words of the spec, not from the source. -/
def isDashDate (s : String) : Bool :=
  s.length == 10 &&
  (List.range 10).all (fun i =>
    let c := s.data.getD i 'x'
    if i == 4 || i == 7 then c == '-' else c.isDigit)

/-- Concrete environment for evaluations: a deterministic stand in for
the md5 hex digest (every theorem quantifies over the hash function), a
local clock on 2024-01-01 whose epoch rendering maps the epoch origin to
the 1970 date, and an empty spreadsheet filesystem. -/
def envA : Env :=
  { hash := fun s => "md5:" ++ s,
    fromtimestamp := fun t =>
      if t == 0 then ("1970-01-01", "09:00:00")
      else if t == 1704067199 then ("2023-12-31", "23:59:59")
      else ("2024-01-01", "10:00:00"),
    now := ("2024-01-01", "12:34:56"),
    today8 := "20240101",
    nowStamp := "20240101123456",
    home := "/Users/u",
    fs := fun _ => none,
    dirs := fun _ => false,
    excelWriteFails := false }

/-- Workspace whose store file vanished between discovery and the
os.path.getmtime call. -/
def wsBad : Workspace := ⟨"ws0", none, "ws0", true, some (some [some "hello"])⟩

/-- Healthy workspace with one fresh prompt captured today. -/
def wsGood : Workspace :=
  ⟨"ws1", some 1704070800, "proj", true, some (some [some "hello"])⟩

/-- Workspace holding one already ledgered prompt and one fresh one. -/
def wsDup : Workspace :=
  ⟨"ws2", some 1704070800, "proj", true, some (some [some "x", some "y"])⟩

/-- Workspace whose store file modification time is exactly the epoch
origin, the falsy value of the Python truthiness test. -/
def wsZero : Workspace := ⟨"ws3", some 0, "proj", true, some (some [some "hello"])⟩

/-- Rows of the merge example in the spec. -/
def rowA : Row := ⟨"2024-01-01", "10:00:00", "a"⟩

/-- Second row of the merge example. -/
def rowB : Row := ⟨"2024-01-01", "10:00:01", "b"⟩

/-- Third row of the merge example. -/
def rowC : Row := ⟨"2024-01-01", "10:00:02", "c"⟩

/-- Existing spreadsheet of the merge example. -/
def tableAB : Table :=
  ⟨["date", "time", "prompt"],
    [["2024-01-01", "10:00:00", "a"], ["2024-01-01", "10:00:01", "b"]]⟩

/-- Spreadsheet filesystem holding the merge example at its target path. -/
def fsAB : String → Option Table := fun p =>
  if p == excelTargetPath "/save" "proj" "2024-01-01" then some tableAB else none

/-- A forty thousand character prompt, for the truncation instance. -/
def longPrompt : String := String.mk (List.replicate 40000 'x')

theorem char_toNat_inj {a b : Char} (h : a.toNat = b.toNat) : a = b := by
  have h2 := congrArg Char.ofNat h
  rwa [Char.ofNat_toNat, Char.ofNat_toNat] at h2

theorem string_data_inj {a b : String} (h : a.data = b.data) : a = b := by
  cases a with
  | mk da =>
    cases b with
    | mk db => exact congrArg String.mk h

theorem charListLt_trans : ∀ (a b c : List Char), charListLt a b = true →
    charListLt b c = true → charListLt a c = true := by
  intro a
  induction a with
  | nil =>
    intro b c hab hbc
    cases b with
    | nil => simp [charListLt] at hab
    | cons y ys =>
      cases c with
      | nil => simp [charListLt] at hbc
      | cons z zs => simp [charListLt]
  | cons x xs ih =>
    intro b c hab hbc
    cases b with
    | nil => simp [charListLt] at hab
    | cons y ys =>
      cases c with
      | nil => simp [charListLt] at hbc
      | cons z zs =>
        simp only [charListLt] at hab hbc ⊢
        by_cases h1 : x.toNat < y.toNat
        · by_cases h2 : y.toNat < z.toNat
          · have h3 : x.toNat < z.toNat := Nat.lt_trans h1 h2
            simp [h3]
          · by_cases h3 : z.toNat < y.toNat
            · simp [h2, h3] at hbc
            · have h4 : x.toNat < z.toNat := by omega
              simp [h4]
        · by_cases h4 : y.toNat < x.toNat
          · simp [h1, h4] at hab
          · simp only [h1, h4, if_false] at hab
            by_cases h2 : y.toNat < z.toNat
            · have h5 : x.toNat < z.toNat := by omega
              simp [h5]
            · by_cases h3 : z.toNat < y.toNat
              · simp [h2, h3] at hbc
              · simp only [h2, h3, if_false] at hbc
                have h6 : ¬ x.toNat < z.toNat := by omega
                have h7 : ¬ z.toNat < x.toNat := by omega
                simp only [h6, h7, if_false]
                exact ih ys zs hab hbc

theorem charListLt_conn : ∀ (a b : List Char), a ≠ b →
    charListLt a b = true ∨ charListLt b a = true := by
  intro a
  induction a with
  | nil =>
    intro b hne
    cases b with
    | nil => exact absurd rfl hne
    | cons y ys => left; simp [charListLt]
  | cons x xs ih =>
    intro b hne
    cases b with
    | nil => right; simp [charListLt]
    | cons y ys =>
      by_cases h1 : x.toNat < y.toNat
      · left; simp [charListLt, h1]
      · by_cases h2 : y.toNat < x.toNat
        · right; simp [charListLt, h2]
        · have hxy : x = y := char_toNat_inj (by omega)
          subst hxy
          have hys : xs ≠ ys := fun h => hne (by rw [h])
          rcases ih ys hys with h | h
          · left; simpa [charListLt, Nat.lt_irrefl] using h
          · right; simpa [charListLt, Nat.lt_irrefl] using h

theorem strLtB_trans {a b c : String} (h1 : strLtB a b = true)
    (h2 : strLtB b c = true) : strLtB a c = true :=
  charListLt_trans a.data b.data c.data h1 h2

theorem strLtB_conn {a b : String} (h : a ≠ b) :
    strLtB a b = true ∨ strLtB b a = true :=
  charListLt_conn a.data b.data (fun hd => h (string_data_inj hd))

theorem strLeB_trans {a b c : String} (h1 : strLeB a b = true)
    (h2 : strLeB b c = true) : strLeB a c = true := by
  simp only [strLeB, Bool.or_eq_true, beq_iff_eq] at h1 h2 ⊢
  rcases h1 with h1 | h1
  · subst h1; exact h2
  · rcases h2 with h2 | h2
    · subst h2; right; exact h1
    · right; exact strLtB_trans h1 h2

theorem rowKeyLe_total (a b : Row) : rowKeyLe a b = true ∨ rowKeyLe b a = true := by
  simp only [rowKeyLe, Bool.or_eq_true, Bool.and_eq_true, beq_iff_eq]
  by_cases hd : a.date = b.date
  · by_cases ht : a.time = b.time
    · left; right; exact ⟨hd, by simp [strLeB, ht]⟩
    · rcases strLtB_conn ht with h | h
      · left; right; exact ⟨hd, by simp [strLeB, h]⟩
      · right; right; exact ⟨hd.symm, by simp [strLeB, h]⟩
  · rcases strLtB_conn hd with h | h
    · left; left; exact h
    · right; left; exact h

theorem rowKeyLe_trans {a b c : Row} (h1 : rowKeyLe a b = true)
    (h2 : rowKeyLe b c = true) : rowKeyLe a c = true := by
  simp only [rowKeyLe, Bool.or_eq_true, Bool.and_eq_true, beq_iff_eq] at h1 h2 ⊢
  rcases h1 with h1 | h1
  · rcases h2 with h2 | h2
    · left; exact strLtB_trans h1 h2
    · left; rw [← h2.1]; exact h1
  · rcases h2 with h2 | h2
    · left; rw [h1.1]; exact h2
    · right; exact ⟨h1.1.trans h2.1, strLeB_trans h1.2 h2.2⟩

theorem mem_foldl_dedupInsert : ∀ (l acc : List Row) (x : Row),
    x ∈ l.foldl dedupInsert acc ↔ x ∈ acc ∨ x ∈ l := by
  intro l
  induction l with
  | nil => intro acc x; simp
  | cons r rs ih =>
    intro acc x
    rw [List.foldl_cons, ih]
    unfold dedupInsert
    by_cases h : r ∈ acc
    · rw [if_pos h]
      constructor
      · rintro (h1 | h1)
        · exact Or.inl h1
        · exact Or.inr (List.mem_cons_of_mem _ h1)
      · rintro (h1 | h1)
        · exact Or.inl h1
        · rcases List.mem_cons.mp h1 with rfl | h2
          · exact Or.inl h
          · exact Or.inr h2
    · rw [if_neg h]
      simp only [List.mem_append, List.mem_singleton, List.mem_cons]
      tauto

theorem nodup_foldl_dedupInsert : ∀ (l acc : List Row), acc.Nodup →
    (l.foldl dedupInsert acc).Nodup := by
  intro l
  induction l with
  | nil => intro acc h; simpa using h
  | cons r rs ih =>
    intro acc h
    rw [List.foldl_cons]
    apply ih
    unfold dedupInsert
    by_cases hr : r ∈ acc
    · rw [if_pos hr]; exact h
    · rw [if_neg hr]
      exact List.Nodup.append h (List.nodup_singleton r)
        (by simpa [List.disjoint_singleton] using hr)

theorem sanitizeStr_data (s : String) :
    (sanitizeStr s).data
      = (s.data.filter (fun c => !(isExcelControl c))).take EXCEL_CELL_LIMIT := by
  simp only [sanitizeStr]
  split
  · rfl
  · next h =>
    show (s.data.filter (fun c => !(isExcelControl c)))
      = (s.data.filter (fun c => !(isExcelControl c))).take EXCEL_CELL_LIMIT
    rw [List.take_of_length_le]
    exact Nat.le_of_not_lt h

theorem string_length_data (s : String) : s.length = s.data.length := rfl

theorem ledgerHas_append_left {m1 m2 : Ledger} {k : String}
    (h : ledgerHas m1 k = true) : ledgerHas (m1 ++ m2) k = true := by
  unfold ledgerHas at h ⊢
  simp [List.any_append, h]

theorem promptStep_cases (env : Env) (mt : Nat) (today : String)
    (st : LoopState) (p : Option String) :
    promptStep env mt today st p = st ∨
    ∃ text, p = some text
      ∧ ledgerHas st.ledger (env.hash text) = false
      ∧ strReplace (extract_timestamp_from_data env none (some mt)).1.1 "-" "" = today
      ∧ promptStep env mt today st p
        = ⟨st.results ++ [⟨(extract_timestamp_from_data env none (some mt)).1.1,
            (extract_timestamp_from_data env none (some mt)).1.2, text⟩],
           st.ledger ++ [(env.hash text, today)], st.newCount + 1⟩ := by
  cases p with
  | none => left; rfl
  | some text =>
    by_cases h1 : ledgerHas st.ledger (env.hash text) = true
    · left; simp [promptStep, h1]
    · have h1f : ledgerHas st.ledger (env.hash text) = false := by
        simpa using h1
      by_cases h2 : strReplace (extract_timestamp_from_data env none (some mt)).1.1 "-" "" = today
      · right
        refine ⟨text, rfl, h1f, h2, ?_⟩
        simp [promptStep, h1f, h2]
      · left
        have h2t : (strReplace (extract_timestamp_from_data env none (some mt)).1.1 "-" ""
            != today) = true := by
          simpa [bne_iff_ne] using h2
        simp [promptStep, h1f, h2t]

theorem foldl_promptStep_decomp (env : Env) (mt : Nat) (today : String) :
    ∀ (ps : List (Option String)) (st : LoopState),
      ∃ Δ : List Row,
        List.foldl (promptStep env mt today) st ps
          = ⟨st.results ++ Δ,
             st.ledger ++ Δ.map (fun r => (env.hash r.prompt, today)),
             st.newCount + Δ.length⟩
        ∧ ∀ r ∈ Δ,
            (r.date, r.time) = (extract_timestamp_from_data env none (some mt)).1
            ∧ strReplace r.date "-" "" = today := by
  intro ps
  induction ps with
  | nil =>
    intro st
    exact ⟨[], by simp, by simp⟩
  | cons p ps ih =>
    intro st
    rw [List.foldl_cons]
    rcases promptStep_cases env mt today st p with h | ⟨text, _, _, hdate, hstep⟩
    · rw [h]; exact ih st
    · rw [hstep]
      obtain ⟨Δ2, hEq, hProp⟩ := ih _
      refine ⟨⟨(extract_timestamp_from_data env none (some mt)).1.1,
               (extract_timestamp_from_data env none (some mt)).1.2, text⟩ :: Δ2, ?_, ?_⟩
      · rw [hEq]
        simp only [List.append_assoc, List.singleton_append, List.map_cons,
          List.length_cons, LoopState.mk.injEq, true_and]
        omega
      · intro r hr
        rcases List.mem_cons.mp hr with rfl | hr2
        · exact ⟨Prod.mk.eta, hdate⟩
        · exact hProp r hr2

theorem foldl_promptStep_no_emit (env : Env) (mt : Nat) (today : String)
    (text : String) :
    ∀ (ps : List (Option String)) (st : LoopState),
      ledgerHas st.ledger (env.hash text) = true →
      ∀ r ∈ (List.foldl (promptStep env mt today) st ps).results,
        r.prompt = text → r ∈ st.results := by
  intro ps
  induction ps with
  | nil => intro st _ r hr _; simpa using hr
  | cons p ps ih =>
    intro st hm r hr hp
    rw [List.foldl_cons] at hr
    rcases promptStep_cases env mt today st p with h | ⟨t, _, hfresh, _, hstep⟩
    · rw [h] at hr; exact ih st hm r hr hp
    · rw [hstep] at hr
      have hne : env.hash t ≠ env.hash text := by
        intro hEq
        rw [hEq] at hfresh
        rw [hfresh] at hm
        exact Bool.noConfusion hm
      have hm2 : ledgerHas (st.ledger ++ [(env.hash t, today)]) (env.hash text) = true :=
        ledgerHas_append_left hm
      have hr2 := ih _ hm2 r hr hp
      rcases List.mem_append.mp hr2 with h2 | h2
      · exact h2
      · exfalso
        have hrEq := List.mem_singleton.mp h2
        rw [hrEq] at hp
        exact hne (congrArg env.hash hp)

theorem process_database_ledger_paths (env : Env) (lf : LedgerFile) (ws : Workspace) :
    ((process_database env lf ws).ledgerReadPath = none
      ∨ (process_database env lf ws).ledgerReadPath
          = some (joinPath (SAVE_PATH env.home) PROCESSED_PROMPTS_FILE))
    ∧ ((process_database env lf ws).ledgerSaved = none
      ∨ ∃ m, (process_database env lf ws).ledgerSaved
          = some (joinPath (SAVE_PATH env.home) PROCESSED_PROMPTS_FILE, m)) := by
  obtain ⟨fn, mto, rn, q, blob⟩ := ws
  cases mto with
  | none => exact ⟨Or.inl rfl, Or.inl rfl⟩
  | some mt =>
    cases q with
    | false => exact ⟨Or.inl rfl, Or.inl rfl⟩
    | true =>
      cases blob with
      | none => exact ⟨Or.inl rfl, Or.inl rfl⟩
      | some ob =>
        cases ob with
        | none => exact ⟨Or.inl rfl, Or.inl rfl⟩
        | some ps =>
          cases ps with
          | nil => exact ⟨Or.inl rfl, Or.inl rfl⟩
          | cons p rest => exact ⟨Or.inr rfl, Or.inr ⟨_, rfl⟩⟩

theorem extractLoop_ledger_paths (env : Env) (save_path : String) :
    ∀ (wss : List Workspace) (lf : LedgerFile),
      (∀ p ∈ (extractLoop env save_path lf wss).ledgerReads,
          p = joinPath (SAVE_PATH env.home) PROCESSED_PROMPTS_FILE)
      ∧ (∀ pm ∈ (extractLoop env save_path lf wss).ledgerWrites,
          pm.1 = joinPath (SAVE_PATH env.home) PROCESSED_PROMPTS_FILE) := by
  intro wss
  induction wss with
  | nil =>
    intro lf
    constructor <;> intro p hp <;> simp [extractLoop] at hp
  | cons ws rest ih =>
    intro lf
    rcases process_database_ledger_paths env lf ws with ⟨hr, hw⟩
    constructor
    · intro p hp
      cases hret : (process_database env lf ws).ret with
      | err e =>
        simp only [extractLoop, hret] at hp
        rcases hr with h | h <;> rw [h] at hp
        · simp at hp
        · simpa using hp
      | ok pn data =>
        simp only [extractLoop, hret] at hp
        rcases List.mem_append.mp hp with h1 | h1
        · rcases hr with h | h <;> rw [h] at h1
          · simp at h1
          · simpa using h1
        · exact (ih _).1 p h1
    · intro pm hpm
      cases hret : (process_database env lf ws).ret with
      | err e =>
        simp only [extractLoop, hret] at hpm
        rcases hw with h | ⟨m, h⟩ <;> rw [h] at hpm
        · simp at hpm
        · simp at hpm
          rw [hpm]
      | ok pn data =>
        simp only [extractLoop, hret] at hpm
        rcases List.mem_append.mp hpm with h1 | h1
        · rcases hw with h | ⟨m, h⟩ <;> rw [h] at h1
          · simp at h1
          · simp at h1
            rw [h1]
        · exact (ih _).2 pm h1

/-- C1: a prompt whose content id is already a key of the loaded ledger
mapping is skipped unconditionally, whatever date the entry stores: no
row for that text appears in the results process_database hands to the
merge writer, for any run whose ledger contains the id. -/
theorem process_database_skips_ledgered (env : Env) (m : Ledger) (ws : Workspace)
    (text : String) (project : String) (rows : List Row)
    (hm : ledgerHas m (env.hash text) = true)
    (hret : (process_database env (LedgerFile.valid m) ws).ret = PDRet.ok project rows) :
    ∀ r ∈ rows, r.prompt ≠ text := by
  obtain ⟨fn, mto, rn, q, blob⟩ := ws
  intro r hr hp
  cases mto with
  | none => simp [process_database] at hret
  | some mt =>
    cases q with
    | false =>
      simp [process_database] at hret
      rw [hret.2] at hr
      simp at hr
    | true =>
      cases blob with
      | none =>
        simp [process_database] at hret
        rw [hret.2] at hr
        simp at hr
      | some ob =>
        cases ob with
        | none =>
          simp [process_database] at hret
          rw [hret.2] at hr
          simp at hr
        | some ps =>
          cases ps with
          | nil =>
            simp [process_database] at hret
            rw [hret.2] at hr
            simp at hr
          | cons p0 rest =>
            simp [process_database, load_processed_prompts] at hret
            rw [← hret.2] at hr
            unfold processPrompts at hr
            have hmem := foldl_promptStep_no_emit env mt env.today8 text
              (p0 :: rest) ⟨[], m, 0⟩ hm r hr hp
            simp at hmem

/-- C1 witness: with a ledger holding the id of the text x under an old
date, a store holding x and y yields only the y row, and the theorem
applies to it. -/
theorem process_database_skips_ledgered_witness :
    ledgerHas [("md5:x", "19990101")] (envA.hash "x") = true
    ∧ (Row.mk "2024-01-01" "10:00:00" "y").prompt ≠ "x" := by
  constructor
  · decide
  · exact process_database_skips_ledgered envA [("md5:x", "19990101")] wsDup "x"
      "proj" [⟨"2024-01-01", "10:00:00", "y"⟩] (by decide) (by decide)
      ⟨"2024-01-01", "10:00:00", "y"⟩ (by simp)

/-- C5: loading a corrupt ledger file renames it to a timestamped .bak
sibling next to it and returns the empty mapping; loading an absent file
returns the empty mapping; the load function is total, so nothing
escapes the load call. -/
theorem ledger_load_corrupt_recovery (save_path nowStamp : String) :
    load_processed_prompts LedgerFile.corrupt save_path nowStamp
      = ⟨[], some (joinPath save_path PROCESSED_PROMPTS_FILE ++ ".bak." ++ nowStamp)⟩
    ∧ load_processed_prompts LedgerFile.absent save_path nowStamp = ⟨[], none⟩ :=
  ⟨rfl, rfl⟩

/-- C10: the in memory ledger after the prompt loop is exactly the
loaded mapping extended with one entry per emitted row (an entry is
gained exactly when a row is appended), and when the capture date does
not equal today the loop emits nothing and leaves the ledger exactly as
loaded, so a date rejected prompt stays absent from the ledger and
remains eligible for a later run. -/
theorem processPrompts_ledger_iff_emitted (env : Env) (mt : Nat) (today : String)
    (m : Ledger) (ps : List (Option String)) :
    (processPrompts env mt today m ps).ledger
      = m ++ (processPrompts env mt today m ps).results.map
          (fun r => (env.hash r.prompt, today))
    ∧ (strReplace (extract_timestamp_from_data env none (some mt)).1.1 "-" "" ≠ today →
        processPrompts env mt today m ps = ⟨[], m, 0⟩) := by
  constructor
  · obtain ⟨Δ, hEq, _⟩ := foldl_promptStep_decomp env mt today ps ⟨[], m, 0⟩
    unfold processPrompts
    rw [hEq]
    simp
  · intro hne
    unfold processPrompts
    induction ps with
    | nil => rfl
    | cons p ps ih =>
      rw [List.foldl_cons]
      rcases promptStep_cases env mt today ⟨[], m, 0⟩ p with h | ⟨text, _, _, hdate, _⟩
      · rw [h]; exact ih
      · exact absurd hdate hne

/-- C10 witness: a store whose modification time falls on 2023-12-31
while today is 20240101 emits nothing and the ledger stays empty. -/
theorem processPrompts_ledger_iff_emitted_witness :
    strReplace (extract_timestamp_from_data envA none (some 1704067199)).1.1 "-" ""
      ≠ envA.today8
    ∧ processPrompts envA 1704067199 envA.today8 [] [some "hello"] = ⟨[], [], 0⟩ := by
  constructor
  · decide
  · exact (processPrompts_ledger_iff_emitted envA 1704067199 envA.today8 []
      [some "hello"]).2 (by decide)

/-- C9 amended: every entry the run adds to the saved ledger mapping
carries as value the today string of the run, the eight digit
YYYYMMDD rendering computed at line 283 (not a dashed YYYY-MM-DD). -/
theorem process_database_ledger_value_format (env : Env) (m : Ledger)
    (ws : Workspace) (p : String) (mm : Ledger) (k v : String)
    (hs : (process_database env (LedgerFile.valid m) ws).ledgerSaved = some (p, mm))
    (hkv : (k, v) ∈ mm) :
    (k, v) ∈ m ∨ v = env.today8 := by
  obtain ⟨fn, mto, rn, q, blob⟩ := ws
  cases mto with
  | none => exact absurd hs (by simp [process_database])
  | some mt =>
    cases q with
    | false => exact absurd hs (by simp [process_database])
    | true =>
      cases blob with
      | none => exact absurd hs (by simp [process_database])
      | some ob =>
        cases ob with
        | none => exact absurd hs (by simp [process_database])
        | some ps =>
          cases ps with
          | nil => exact absurd hs (by simp [process_database])
          | cons p0 rest =>
            simp [process_database, load_processed_prompts] at hs
            rw [← hs.2] at hkv
            obtain ⟨Δ, hEq, _⟩ :=
              foldl_promptStep_decomp env mt env.today8 (p0 :: rest) ⟨[], m, 0⟩
            unfold processPrompts at hkv
            rw [hEq] at hkv
            rcases List.mem_append.mp hkv with h | h
            · left; exact h
            · right
              rcases List.mem_map.mp h with ⟨r, _, hEq2⟩
              injection hEq2 with h1 h2
              exact h2.symm

/-- C9 witness: the run over a fresh prompt saves a ledger whose single
new entry has value the today string of the run. -/
theorem process_database_ledger_value_format_witness :
    (process_database envA (LedgerFile.valid []) wsGood).ledgerSaved
      = some (joinPath (SAVE_PATH envA.home) PROCESSED_PROMPTS_FILE,
          [("md5:hello", "20240101")])
    ∧ ((("md5:hello", "20240101") : String × String) ∈ ([] : Ledger)
        ∨ "20240101" = envA.today8) := by
  constructor
  · decide
  · exact process_database_ledger_value_format envA [] wsGood
      (joinPath (SAVE_PATH envA.home) PROCESSED_PROMPTS_FILE)
      [("md5:hello", "20240101")] "md5:hello" "20240101" (by decide) (by decide)

/-- C9 counterexample: a concrete run records the value 20240101, which
is not in the dashed YYYY-MM-DD shape the claim asserts; the dashed
rendering of the same date does satisfy the shape, so the predicate
formalizes the claim faithfully. -/
theorem ledger_value_not_dash_formatted :
    (process_database envA (LedgerFile.valid []) wsGood).ledgerSaved
      = some (joinPath (SAVE_PATH envA.home) PROCESSED_PROMPTS_FILE,
          [("md5:hello", "20240101")])
    ∧ isDashDate "20240101" = false
    ∧ isDashDate "2024-01-01" = true :=
  ⟨by decide, by decide, by decide⟩

/-- C6 amended: every emitted row takes its date and time from
extract_timestamp_from_data applied to the store file modification time
(which is the modification time rendering when that time is nonzero, but
the current clock when it is exactly zero, by the Python truthiness
test), and the date of every emitted row equals today; timestamps inside
the record are never consulted, the model not even carrying them. -/
theorem process_database_rows_use_store_mtime_or_now (env : Env) (lf : LedgerFile)
    (ws : Workspace) (mt : Nat) (project : String) (rows : List Row)
    (hmt : ws.mtime = some mt)
    (hret : (process_database env lf ws).ret = PDRet.ok project rows) :
    ∀ r ∈ rows,
      (r.date, r.time) = (extract_timestamp_from_data env none (some mt)).1
      ∧ strReplace r.date "-" "" = env.today8 := by
  obtain ⟨fn, mto, rn, q, blob⟩ := ws
  have hmt2 : mto = some mt := hmt
  subst hmt2
  intro r hr
  cases q with
  | false =>
    simp [process_database] at hret
    rw [hret.2] at hr
    simp at hr
  | true =>
    cases blob with
    | none =>
      simp [process_database] at hret
      rw [hret.2] at hr
      simp at hr
    | some ob =>
      cases ob with
      | none =>
        simp [process_database] at hret
        rw [hret.2] at hr
        simp at hr
      | some ps =>
        cases ps with
        | nil =>
          simp [process_database] at hret
          rw [hret.2] at hr
          simp at hr
        | cons p0 rest =>
          simp [process_database] at hret
          rw [← hret.2] at hr
          obtain ⟨Δ, hEq, hProp⟩ := foldl_promptStep_decomp env mt env.today8
            (p0 :: rest)
            ⟨[], (load_processed_prompts lf (SAVE_PATH env.home) env.nowStamp).mapping, 0⟩
          unfold processPrompts at hr
          rw [hEq] at hr
          simp only [List.nil_append] at hr
          exact hProp r hr

/-- C6 amended witness: the row emitted for a healthy store carries
exactly the rendering of its modification time, and its date matches
today. -/
theorem process_database_rows_use_store_mtime_or_now_witness :
    wsGood.mtime = some 1704070800
    ∧ ((Row.mk "2024-01-01" "10:00:00" "hello").date,
        (Row.mk "2024-01-01" "10:00:00" "hello").time)
        = (extract_timestamp_from_data envA none (some 1704070800)).1
    ∧ strReplace (Row.mk "2024-01-01" "10:00:00" "hello").date "-" "" = envA.today8 := by
  refine ⟨rfl, ?_⟩
  exact process_database_rows_use_store_mtime_or_now envA (LedgerFile.valid [])
    wsGood 1704070800 "proj" [⟨"2024-01-01", "10:00:00", "hello"⟩] rfl (by decide)
    ⟨"2024-01-01", "10:00:00", "hello"⟩ (by simp)

/-- C6 counterexample: a store whose modification time is exactly the
epoch origin (a falsy float in Python) yields a row stamped with the
current clock, not with the rendering of the modification time, and the
capture date derived from the modification time is not today although
the row is still emitted, against the claim. -/
theorem row_timestamp_not_from_mtime :
    (process_database envA (LedgerFile.valid []) wsZero).ret
      = PDRet.ok "proj" [⟨"2024-01-01", "12:34:56", "hello"⟩]
    ∧ envA.fromtimestamp 0 = ("1970-01-01", "09:00:00")
    ∧ strReplace (envA.fromtimestamp 0).1 "-" "" ≠ envA.today8
    ∧ (("2024-01-01", "12:34:56") : String × String) ≠ envA.fromtimestamp 0 :=
  ⟨by decide, by decide, by decide, by decide⟩

/-- C7: sanitization of a row keeps in every field exactly the
characters outside the removed control class, in order, truncated to the
maximum cell length; hence no removed control character survives and no
field exceeds the limit; the literal instances show a prompt with
control character x01 and a tab keeping the tab and losing the x01, and
a forty thousand character prompt truncated to exactly the limit. -/
theorem sanitize_removes_controls_and_truncates (r : Row) :
    ((sanitizeRow r).date.data
        = (r.date.data.filter (fun c => !(isExcelControl c))).take EXCEL_CELL_LIMIT
      ∧ (sanitizeRow r).time.data
        = (r.time.data.filter (fun c => !(isExcelControl c))).take EXCEL_CELL_LIMIT
      ∧ (sanitizeRow r).prompt.data
        = (r.prompt.data.filter (fun c => !(isExcelControl c))).take EXCEL_CELL_LIMIT)
    ∧ ((sanitizeRow r).prompt.data.all (fun c => !(isExcelControl c)) = true)
    ∧ (sanitizeRow r).prompt.length ≤ EXCEL_CELL_LIMIT
    ∧ sanitizeStr "a\x01\tb" = "a\tb"
    ∧ (sanitizeStr longPrompt).length = EXCEL_CELL_LIMIT := by
  refine ⟨⟨sanitizeStr_data r.date, sanitizeStr_data r.time, sanitizeStr_data r.prompt⟩,
    ?_, ?_, by decide, ?_⟩
  · rw [List.all_eq_true]
    intro c hc
    simp only [sanitizeRow] at hc
    rw [sanitizeStr_data r.prompt] at hc
    have hc2 : c ∈ List.filter (fun c => !(isExcelControl c)) r.prompt.data :=
      List.mem_of_mem_take hc
    have hres := (List.mem_filter.mp hc2).2
    simpa using hres
  · simp only [sanitizeRow, string_length_data]
    rw [sanitizeStr_data r.prompt]
    exact List.length_take_le _ _
  · rw [string_length_data, sanitizeStr_data longPrompt]
    have h2 : longPrompt.data = List.replicate 40000 'x' := rfl
    have hcond : ((fun c => !(isExcelControl c)) 'x' = true) := by decide
    rw [h2, List.filter_replicate, if_pos hcond, List.take_replicate,
      List.length_replicate]
    decide

/-- C2: writing into an existing table produces exactly the set union of
the coerced existing rows (columns forced to date, time, prompt: missing
ones empty, extra ones dropped) and the new rows, with exact duplicates
on the full key removed and the result sorted ascending by date then
time; stated for new rows that sanitization leaves unchanged, as in the
claim instance. -/
theorem save_to_excel_merges_existing
    (fs : String → Option Table) (dirs : String → Bool) (excelFails : Bool)
    (project save_path : String) (d0 : Row) (ds : List Row) (t : Table)
    (path : String) (rows : List Row)
    (hfs : fs (excelTargetPath save_path project d0.date) = some t)
    (hclean : ∀ r ∈ d0 :: ds, sanitizeRow r = r)
    (hw : (save_to_excel fs dirs excelFails project (d0 :: ds) save_path).written
            = some (path, rows)) :
    (∀ x, x ∈ rows ↔ x ∈ t.rows.map (fun vals => coerceRow t.cols vals) ∨ x ∈ d0 :: ds)
    ∧ rows.Nodup ∧ List.Sorted rowKeyRel rows := by
  have hmap : (d0 :: ds).map sanitizeRow = d0 :: ds := by
    have h1 := List.map_congr_left hclean
    simpa using h1
  have hw2 : rows = sortRows (dedupKeepFirst
      (t.rows.map (fun vals => coerceRow t.cols vals) ++ (d0 :: ds))) := by
    simp only [save_to_excel, hfs, hmap] at hw
    cases excelFails with
    | false =>
      simp at hw
      exact hw.2.symm
    | true =>
      simp at hw
      split at hw
      · simp at hw
        exact hw.2.symm
      · simp at hw
  have hperm := List.perm_insertionSort rowKeyRel (dedupKeepFirst
    (t.rows.map (fun vals => coerceRow t.cols vals) ++ (d0 :: ds)))
  refine ⟨?_, ?_, ?_⟩
  · intro x
    rw [hw2]
    unfold sortRows
    rw [hperm.mem_iff]
    unfold dedupKeepFirst
    rw [mem_foldl_dedupInsert]
    simp [List.mem_append]
  · rw [hw2]
    unfold sortRows
    rw [hperm.nodup_iff]
    exact nodup_foldl_dedupInsert _ [] List.nodup_nil
  · rw [hw2]
    haveI : IsTotal Row rowKeyRel := ⟨rowKeyLe_total⟩
    haveI : IsTrans Row rowKeyRel := ⟨fun a b c h1 h2 => rowKeyLe_trans h1 h2⟩
    exact List.sorted_insertionSort rowKeyRel _

/-- C2 witness: the spec instance: merging the existing rows a, b with
the new rows b, c yields exactly the three distinct rows in date and
time order, without duplicates. -/
theorem save_to_excel_merges_existing_witness :
    fsAB (excelTargetPath "/save" "proj" rowB.date) = some tableAB
    ∧ (save_to_excel fsAB (fun _ => false) false "proj" [rowB, rowC] "/save").written
        = some ("/save/proj/proj_20240101_prompt.xlsx", [rowA, rowB, rowC])
    ∧ ([rowA, rowB, rowC].Nodup ∧ List.Sorted rowKeyRel [rowA, rowB, rowC]) := by
  refine ⟨by decide, by decide, ?_⟩
  exact (save_to_excel_merges_existing fsAB (fun _ => false) false "proj" "/save"
    rowB [rowC] tableAB "/save/proj/proj_20240101_prompt.xlsx" [rowA, rowB, rowC]
    (by decide) (by decide) (by decide)).2

/-- C8 amended: when the primary spreadsheet write raises, a csv write
of exactly the rows the primary write would have contained is attempted
at the path obtained by replacing every occurrence of the .xlsx
substring in the target path by .csv; when the directory of that path
exists (in particular whenever it is the project folder itself, which
makedirs just created, the case whenever .xlsx occurs nowhere else in
the path), the csv is written there and that path is returned; when the
directory does not exist, the csv write itself raises, the outer except
catches it, and the call returns nothing having written nothing; a call
with zero rows writes nothing and returns nothing. -/
theorem save_to_excel_csv_fallback (fs : String → Option Table)
    (dirs : String → Bool) (project save_path : String) (d0 : Row) (ds : List Row)
    (csv : String)
    (hcsv : csv = strReplace (excelTargetPath save_path project d0.date) ".xlsx" ".csv") :
    ((dirs (dirName csv) || (dirName csv == joinPath save_path project)) = true →
      (save_to_excel fs dirs true project (d0 :: ds) save_path).ret = some csv
      ∧ (save_to_excel fs dirs true project (d0 :: ds) save_path).written.map Prod.fst
          = some csv
      ∧ (save_to_excel fs dirs true project (d0 :: ds) save_path).written.map Prod.snd
          = (save_to_excel fs dirs false project (d0 :: ds) save_path).written.map Prod.snd)
    ∧ ((dirs (dirName csv) || (dirName csv == joinPath save_path project)) = false →
      save_to_excel fs dirs true project (d0 :: ds) save_path = ⟨none, none⟩)
    ∧ (save_to_excel fs dirs false project (d0 :: ds) save_path).ret
        = some (excelTargetPath save_path project d0.date)
    ∧ (∀ b : Bool, save_to_excel fs dirs b project [] save_path = ⟨none, none⟩) := by
  subst hcsv
  cases hfs : fs (excelTargetPath save_path project d0.date) with
  | none =>
    refine ⟨?_, ?_, ?_, fun b => rfl⟩
    · intro hcond
      simp [save_to_excel, hfs, hcond]
    · intro hcond
      simp [save_to_excel, hfs, hcond]
    · simp [save_to_excel, hfs]
  | some t =>
    refine ⟨?_, ?_, ?_, fun b => rfl⟩
    · intro hcond
      simp [save_to_excel, hfs, hcond]
    · intro hcond
      simp [save_to_excel, hfs, hcond]
    · simp [save_to_excel, hfs]

/-- C8 amended witness: for an ordinary project name the fallback
directory is the project folder itself, so the csv is written at the
replaced path with exactly the primary rows and that path returned. -/
theorem save_to_excel_csv_fallback_witness :
    ("/s/proj/proj_20240101_prompt.csv" : String)
      = strReplace (excelTargetPath "/s" "proj" rowA.date) ".xlsx" ".csv"
    ∧ (dirName "/s/proj/proj_20240101_prompt.csv" == joinPath "/s" "proj") = true
    ∧ ((save_to_excel (fun _ => none) (fun _ => false) true "proj" [rowA] "/s").ret
        = some "/s/proj/proj_20240101_prompt.csv"
      ∧ (save_to_excel (fun _ => none) (fun _ => false) true "proj" [rowA]
          "/s").written.map Prod.fst
        = some "/s/proj/proj_20240101_prompt.csv"
      ∧ (save_to_excel (fun _ => none) (fun _ => false) true "proj" [rowA]
          "/s").written.map Prod.snd
        = (save_to_excel (fun _ => none) (fun _ => false) false "proj" [rowA]
          "/s").written.map Prod.snd) := by
  refine ⟨by decide, by decide, ?_⟩
  exact (save_to_excel_csv_fallback (fun _ => none) (fun _ => false) "proj" "/s"
    rowA [] "/s/proj/proj_20240101_prompt.csv" (by decide)).1 (by decide)

/-- C8 counterexample: with a project name that itself contains .xlsx,
the replace-all fallback path lands in the directory /s/p.csv, which was
never created (makedirs only created /s/p.xlsx), so the csv write raises
too, the outer except returns None and nothing at all is written; the
claim promised a csv at the same base path with the extension
substituted, with the fallback path returned. -/
theorem csv_fallback_path_not_extension_swap :
    save_to_excel (fun _ => none) (fun _ => false) true "p.xlsx" [rowA] "/s"
      = ⟨none, none⟩
    ∧ excelTargetPath "/s" "p.xlsx" rowA.date = "/s/p.xlsx/p.xlsx_20240101_prompt.xlsx"
    ∧ strReplace "/s/p.xlsx/p.xlsx_20240101_prompt.xlsx" ".xlsx" ".csv"
        = "/s/p.csv/p.csv_20240101_prompt.csv"
    ∧ dirName "/s/p.csv/p.csv_20240101_prompt.csv" = "/s/p.csv"
    ∧ ("/s/p.csv" : String) ≠ joinPath "/s" "p.xlsx" :=
  ⟨by decide, by decide, by decide, by decide, by decide⟩

/-- C3: the claim fails on the code: an exception raised before the
project name is assigned (the store file vanishing between discovery and
the os.path.getmtime call) is caught, but the final return statement
then reads the never assigned project_name local and raises
UnboundLocalError, which escapes process_database; extract_prompts has
no try around the call, so the run aborts and the remaining workspaces
are never processed, although the same remaining workspace alone would
have produced a file. -/
theorem workspace_failure_aborts_run :
    (extract_prompts envA (LedgerFile.valid []) [wsBad, wsGood] "/save").ret
      = ERet.err PyErr.unboundLocal
    ∧ (extract_prompts envA (LedgerFile.valid []) [wsBad, wsGood] "/save").excelWrites = []
    ∧ (extract_prompts envA (LedgerFile.valid []) [wsGood] "/save").ret
      = ERet.ok ["/save/proj/proj_20240101_prompt.xlsx"]
    ∧ (extract_prompts envA (LedgerFile.valid []) [wsGood] "/save").excelWrites
      = [("/save/proj/proj_20240101_prompt.xlsx",
          [⟨"2024-01-01", "10:00:00", "hello"⟩])] :=
  ⟨by decide, by decide, by decide, by decide⟩

/-- C4 amended: the ledger file is always read from and written to the
module default save root derived from the home directory, whatever save
root the caller passes to extract_prompts: the load and save calls at
lines 287 and 345 pass no path and therefore use the default argument
SAVE_PATH, not the callers save root. -/
theorem extract_prompts_ledger_at_default (env : Env) (lf : LedgerFile)
    (wss : List Workspace) (save_path : String) :
    (∀ p ∈ (extract_prompts env lf wss save_path).ledgerReads,
        p = joinPath (SAVE_PATH env.home) PROCESSED_PROMPTS_FILE)
    ∧ (∀ pm ∈ (extract_prompts env lf wss save_path).ledgerWrites,
        pm.1 = joinPath (SAVE_PATH env.home) PROCESSED_PROMPTS_FILE) :=
  extractLoop_ledger_paths env save_path wss lf

/-- C4 amended witness: a run against the save root /custom still reads
the ledger at the default location under the home directory. -/
theorem extract_prompts_ledger_at_default_witness :
    "/Users/u/Desktop/RYJ/saveprompt/processed_prompts.json"
      ∈ (extract_prompts envA (LedgerFile.valid []) [wsGood] "/custom").ledgerReads
    ∧ "/Users/u/Desktop/RYJ/saveprompt/processed_prompts.json"
      = joinPath (SAVE_PATH envA.home) PROCESSED_PROMPTS_FILE := by
  constructor
  · decide
  · exact (extract_prompts_ledger_at_default envA (LedgerFile.valid []) [wsGood]
      "/custom").1 "/Users/u/Desktop/RYJ/saveprompt/processed_prompts.json" (by decide)

/-- C4 counterexample: invoking the pipeline with the save root /custom
reads and writes the ledger under the default save root, not under
/custom, so changing the save root does not change the ledger file. -/
theorem ledger_path_ignores_save_root :
    (extract_prompts envA (LedgerFile.valid []) [wsGood] "/custom").ledgerReads
      = ["/Users/u/Desktop/RYJ/saveprompt/processed_prompts.json"]
    ∧ (extract_prompts envA (LedgerFile.valid []) [wsGood] "/custom").ledgerWrites.map
        Prod.fst
      = ["/Users/u/Desktop/RYJ/saveprompt/processed_prompts.json"]
    ∧ joinPath "/custom" PROCESSED_PROMPTS_FILE = "/custom/processed_prompts.json"
    ∧ ("/Users/u/Desktop/RYJ/saveprompt/processed_prompts.json" : String)
      ≠ "/custom/processed_prompts.json" :=
  ⟨by decide, by decide, by decide, by decide⟩

end CursorPrompt
